import Mathlib

/-!
Shallow embedding of the MMRP (Multiple MAC Registration Protocol) dissector
from `epan/dissectors/packet-mrp-mmrp.c`.

The byte buffer (`tvbuff_t`) is modelled as a `List Nat` of byte values; the
accessors `tvb_get_guint8` / `tvb_get_ntohs` return `none` when the access
runs past the end of the buffer, modelling the exception that aborts the
dissection in Wireshark.  The `proto_tree_add_*` calls are modelled as pure
emissions into a `List Emit`; the two dissection loops of `dissect_mmrp` are
modelled as structurally recursive functions over a fuel argument that the
top-level entry point instantiates with `tvb.length + 1`, which is more fuel
than the loops can ever use because every loop iteration strictly advances a
cursor that the bounds checks keep below `tvb.length`.
-/

/-- End mark sentinel `MMRP_END_MARK` (0x0000). -/
def MMRP_END_MARK : Nat := 0x0000

/-- `MMRP_PROTOCOL_VERSION_OFFSET`. -/
def MMRP_PROTOCOL_VERSION_OFFSET : Nat := 0

/-- `MMRP_MESSAGE_GROUP_OFFSET`. -/
def MMRP_MESSAGE_GROUP_OFFSET : Nat := MMRP_PROTOCOL_VERSION_OFFSET + 1

/-- `MMRP_ATTRIBUTE_TYPE_OFFSET`. -/
def MMRP_ATTRIBUTE_TYPE_OFFSET : Nat := MMRP_MESSAGE_GROUP_OFFSET

/-- `MMRP_ATTRIBUTE_LENGTH_OFFSET`. -/
def MMRP_ATTRIBUTE_LENGTH_OFFSET : Nat := MMRP_ATTRIBUTE_TYPE_OFFSET + 1

/-- `MMRP_ATTRIBUTE_LIST_GROUP_OFFSET`. -/
def MMRP_ATTRIBUTE_LIST_GROUP_OFFSET : Nat := MMRP_ATTRIBUTE_LENGTH_OFFSET + 1

/-- `MMRP_VECTOR_ATTRIBUTE_GROUP_OFFSET`. -/
def MMRP_VECTOR_ATTRIBUTE_GROUP_OFFSET : Nat := MMRP_ATTRIBUTE_LIST_GROUP_OFFSET

/-- `MMRP_VECTOR_HEADER_OFFSET`. -/
def MMRP_VECTOR_HEADER_OFFSET : Nat := MMRP_VECTOR_ATTRIBUTE_GROUP_OFFSET

/-- `MMRP_LEAVE_ALL_EVENT_MASK` (0xE000). -/
def MMRP_LEAVE_ALL_EVENT_MASK : Nat := 0xE000

/-- `MMRP_NUMBER_OF_VALUES_MASK` (0x1fff). -/
def MMRP_NUMBER_OF_VALUES_MASK : Nat := 0x1fff

/-- `MMRP_FIRST_VALUE_GROUP_OFFSET`. -/
def MMRP_FIRST_VALUE_GROUP_OFFSET : Nat := MMRP_VECTOR_HEADER_OFFSET + 2

/-- `MMRP_SERVICE_THREE_PACKED_OFFSET`. -/
def MMRP_SERVICE_THREE_PACKED_OFFSET : Nat := MMRP_FIRST_VALUE_GROUP_OFFSET + 1

/-- `MMRP_MAC_THREE_PACKED_OFFSET`. -/
def MMRP_MAC_THREE_PACKED_OFFSET : Nat := MMRP_FIRST_VALUE_GROUP_OFFSET + 6

/-- `MMRP_ATTRIBUTE_TYPE_SERVICE` (0x01). -/
def MMRP_ATTRIBUTE_TYPE_SERVICE : Nat := 0x01

/-- `MMRP_ATTRIBUTE_TYPE_MAC` (0x02). -/
def MMRP_ATTRIBUTE_TYPE_MAC : Nat := 0x02

/-- The `attribute_type_vals` value-string table. -/
def attribute_type_vals : List (Nat × String) :=
  [(MMRP_ATTRIBUTE_TYPE_SERVICE, "Service Requirement"),
   (MMRP_ATTRIBUTE_TYPE_MAC, "MAC")]

/-- `val_to_str_const`: look a value up in a value-string table, falling back
to the given unknown string. -/
def val_to_str_const (v : Nat) (vs : List (Nat × String)) (unknown : String) : String :=
  match vs.find? (fun p => p.1 == v) with
  | some p => p.2
  | none => unknown

/-- `tvb_get_guint8`: read one byte, `none` when past the end of the buffer
(the exception that aborts the dissection). -/
def tvb_get_guint8 (tvb : List Nat) (offset : Nat) : Option Nat :=
  tvb[offset]?

/-- `tvb_get_ntohs`: read a big-endian 16-bit value, `none` when any of the
two bytes is past the end of the buffer. -/
def tvb_get_ntohs (tvb : List Nat) (offset : Nat) : Option Nat :=
  match tvb[offset]?, tvb[offset + 1]? with
  | some hi, some lo => some (hi * 256 + lo)
  | _, _ => none

/-- Identifiers of the registered header fields (`hf_mmrp_*`). -/
inductive FieldId where
  | protoId
  | message
  | attributeType
  | attributeLength
  | attributeList
  | vectorAttribute
  | vectorHeader
  | leaveAllEvent
  | numberOfValues
  | firstValue
  | mac
  | serReq
  | threePackedEvent
  | endMark
  deriving DecidableEq, Repr

/-- One output of the dissector: `item f p` models `proto_tree_add_item` of
field `f` at buffer position `p`; `uint f p v` models `proto_tree_add_uint`
with explicit value `v`; `text s` models `proto_item_append_text` of the
Message heading suffix. -/
inductive Emit where
  | item : FieldId → Nat → Emit
  | uint : FieldId → Nat → Nat → Emit
  | text : String → Emit
  deriving DecidableEq, Repr

/-- The per-byte digit decomposition performed inside
`dissect_mmrp_three_packed_event` (`value / 36`, then the subtractions and
divisions by 6 exactly as in the source). -/
def expandByte (value : Nat) : Nat × Nat × Nat :=
  let e0 := value / 36
  let v1 := value - 36 * e0
  let e1 := v1 / 6
  let v2 := v1 - 6 * e1
  (e0, e1, v2)

/-- `dissect_mmrp_three_packed_event`: expand `remaining` three-packed event
values starting at `offset`, emitting one `(byte position, event value)` pair
per event and returning the offset just past the last consumed byte.  The
three cases `1` / `2` / `≥ 3` mirror the two `if (counter < number_of_values)`
guards of the source loop body: the last byte's trailing digit(s) are computed
but not emitted. -/
def dissect_mmrp_three_packed_event (tvb : List Nat) :
    Nat → Nat → Option (List (Nat × Nat) × Nat)
  | offset, 0 => some ([], offset)
  | offset, 1 =>
    match tvb_get_guint8 tvb offset with
    | none => none
    | some value =>
      let (e0, _e1, _e2) := expandByte value
      some ([(offset, e0)], offset + 1)
  | offset, 2 =>
    match tvb_get_guint8 tvb offset with
    | none => none
    | some value =>
      let (e0, e1, _e2) := expandByte value
      some ([(offset, e0), (offset, e1)], offset + 1)
  | offset, (n + 3) =>
    match tvb_get_guint8 tvb offset with
    | none => none
    | some value =>
      let (e0, e1, e2) := expandByte value
      match dissect_mmrp_three_packed_event tvb (offset + 1) n with
      | none => none
      | some (ps, fin) =>
        some ((offset, e0) :: (offset, e1) :: (offset, e2) :: ps, fin)

/-- The vector-attribute length computation of `dissect_mmrp`:
`vect_attr_len = 2 + attribute_length + (number_of_values + 2)/3`. -/
def vect_attr_len (attribute_length number_of_values : Nat) : Nat :=
  2 + attribute_length + (number_of_values + 2) / 3

/-- The `number_of_values` computation of `dissect_mmrp`: the big-endian
vector header ANDed with `MMRP_NUMBER_OF_VALUES_MASK`. -/
def number_of_values_of (h : Nat) : Nat :=
  h &&& MMRP_NUMBER_OF_VALUES_MASK

/-- Modelled from the spec: the Leave-All-Event display value produced by
Wireshark's `proto_tree_add_bitmask` machinery (`epan/proto.c`, not under
`src/`), which renders a masked field as the header value ANDed with the
field's mask (`MMRP_LEAVE_ALL_EVENT_MASK`) and shifted right by the mask's
trailing-zero count; per the spec, Leave-All-Event is bits [15:13] of the
Vector Header. -/
def leave_all_event_of (h : Nat) : Nat :=
  (h &&& MMRP_LEAVE_ALL_EVENT_MASK) >>> 13

/-- `dissect_mmrp_common1`: the Attribute Type and Attribute Length field
emissions, at their fixed offsets relative to the current Message. -/
def dissect_mmrp_common1 (msg_offset : Nat) : List Emit :=
  [Emit.item FieldId.attributeType (MMRP_ATTRIBUTE_TYPE_OFFSET + msg_offset),
   Emit.item FieldId.attributeLength (MMRP_ATTRIBUTE_LENGTH_OFFSET + msg_offset)]

/-- `dissect_mmrp_common2`: the Vector Header bitmask emission (header value
plus its two masked sub-fields), at `MMRP_VECTOR_HEADER_OFFSET + msg_offset`.
The header value `h` was already read by the caller's loop condition at the
same buffer position. -/
def dissect_mmrp_common2 (h msg_offset : Nat) : List Emit :=
  [Emit.uint FieldId.vectorHeader (MMRP_VECTOR_HEADER_OFFSET + msg_offset) h,
   Emit.uint FieldId.leaveAllEvent (MMRP_VECTOR_HEADER_OFFSET + msg_offset) (leave_all_event_of h),
   Emit.uint FieldId.numberOfValues (MMRP_VECTOR_HEADER_OFFSET + msg_offset) (number_of_values_of h)]

/-- The emissions made at the head of every Vector Attribute iteration:
the Vector Attribute group item followed by the Vector Header bitmask. -/
def va_head_emits (h base : Nat) : List Emit :=
  Emit.item FieldId.vectorAttribute (MMRP_VECTOR_ATTRIBUTE_GROUP_OFFSET + base) ::
    dissect_mmrp_common2 h base

/-- The FirstValue emissions of the MAC branch: the FirstValue group item and
the MAC address item. -/
def mac_first_value_emits (base : Nat) : List Emit :=
  [Emit.item FieldId.firstValue (MMRP_FIRST_VALUE_GROUP_OFFSET + base),
   Emit.item FieldId.mac (MMRP_FIRST_VALUE_GROUP_OFFSET + base)]

/-- The FirstValue emissions of the Service branch: the FirstValue group item
and the Service Requirement item. -/
def service_first_value_emits (base : Nat) : List Emit :=
  [Emit.item FieldId.firstValue (MMRP_FIRST_VALUE_GROUP_OFFSET + base),
   Emit.item FieldId.serReq (MMRP_FIRST_VALUE_GROUP_OFFSET + base)]

/-- The inner `while` loop of `dissect_mmrp` over Vector Attributes.  State:
`vect_offset` (the cursor relative to the Message) and `offset` (the event
cursor variable, updated only by the two `dissect_mmrp_three_packed_event`
calls).  Returns the final `vect_offset`, the final `offset` and the
emissions, or `none` when a buffer access fails.  `fuel` only bounds the
recursion; the top-level entry point passes `tvb.length + 1`, which the loop
can never exhaust because each iteration advances `vect_offset` by
`vect_attr_len ≥ 2` while the loop condition keeps it below `tvb.length`. -/
def va_loop (tvb : List Nat) (attribute_type attribute_length msg_offset : Nat) :
    Nat → Nat → Nat → Option (Nat × Nat × List Emit)
  | 0, _, _ => none
  | fuel + 1, vect_offset, offset =>
    match tvb_get_ntohs tvb (MMRP_VECTOR_HEADER_OFFSET + msg_offset + vect_offset) with
    | none => none
    | some h =>
      if h = MMRP_END_MARK then
        some (vect_offset, offset, [])
      else
        let number_of_values := number_of_values_of h
        let len := vect_attr_len attribute_length number_of_values
        let base := msg_offset + vect_offset
        if attribute_type = MMRP_ATTRIBUTE_TYPE_MAC then
          match dissect_mmrp_three_packed_event tvb
              (MMRP_MAC_THREE_PACKED_OFFSET + base) number_of_values with
          | none => none
          | some (ps, offset') =>
            match va_loop tvb attribute_type attribute_length msg_offset
                fuel (vect_offset + len) offset' with
            | none => none
            | some (vf, of, es) =>
              some (vf, of,
                va_head_emits h base ++ mac_first_value_emits base ++
                  ps.map (fun p => Emit.uint FieldId.threePackedEvent p.1 p.2) ++ es)
        else if attribute_type = MMRP_ATTRIBUTE_TYPE_SERVICE then
          match dissect_mmrp_three_packed_event tvb
              (MMRP_SERVICE_THREE_PACKED_OFFSET + base) number_of_values with
          | none => none
          | some (ps, offset') =>
            match va_loop tvb attribute_type attribute_length msg_offset
                fuel (vect_offset + len) offset' with
            | none => none
            | some (vf, of, es) =>
              some (vf, of,
                va_head_emits h base ++ service_first_value_emits base ++
                  ps.map (fun p => Emit.uint FieldId.threePackedEvent p.1 p.2) ++ es)
        else
          match va_loop tvb attribute_type attribute_length msg_offset
              fuel (vect_offset + len) offset with
          | none => none
          | some (vf, of, es) => some (vf, of, va_head_emits h base ++ es)

/-- The fixed emissions at the head of every Message iteration: the Message
group item, the appended attribute-type label, `dissect_mmrp_common1` and the
Attribute List group item. -/
def msg_head_emits (attribute_type msg_offset : Nat) : List Emit :=
  [Emit.item FieldId.message (MMRP_MESSAGE_GROUP_OFFSET + msg_offset),
   Emit.text (val_to_str_const attribute_type attribute_type_vals "<Unknown>")] ++
    dissect_mmrp_common1 msg_offset ++
    [Emit.item FieldId.attributeList (MMRP_ATTRIBUTE_LIST_GROUP_OFFSET + msg_offset)]

/-- The outer `while` loop of `dissect_mmrp` over Messages.  State:
`msg_offset` and the event cursor `offset` (initialised to `0` in
`dissect_mmrp` and threaded through every Message).  After the inner loop the
Vector Attribute End Mark item is emitted at the current event cursor, and
`msg_offset` advances by `vect_offset + 2 + 2`.  Returns the final
`msg_offset`, the final event cursor and the emissions. -/
def msg_loop (tvb : List Nat) : Nat → Nat → Nat → Option (Nat × Nat × List Emit)
  | 0, _, _ => none
  | fuel + 1, msg_offset, offset =>
    match tvb_get_ntohs tvb (MMRP_ATTRIBUTE_TYPE_OFFSET + msg_offset) with
    | none => none
    | some w =>
      if w = MMRP_END_MARK then
        some (msg_offset, offset, [])
      else
        match tvb_get_guint8 tvb (MMRP_ATTRIBUTE_TYPE_OFFSET + msg_offset),
              tvb_get_guint8 tvb (MMRP_ATTRIBUTE_LENGTH_OFFSET + msg_offset) with
        | some attribute_type, some attribute_length =>
          match va_loop tvb attribute_type attribute_length msg_offset
              (tvb.length + 1) 0 offset with
          | none => none
          | some (vect_offset, offset', vaEmits) =>
            match msg_loop tvb fuel (msg_offset + vect_offset + 2 + 2) offset' with
            | none => none
            | some (mf, of, rest) =>
              some (mf, of,
                msg_head_emits attribute_type msg_offset ++ vaEmits ++
                  [Emit.item FieldId.endMark offset'] ++ rest)
        | _, _ => none

/-- `dissect_mmrp`: emit the protocol version field, run the Message loop
starting at `msg_offset = 0` with event cursor `offset = 0`, then emit the
Message-level End Mark at `offset + 2`; returns the captured length and the
emissions, or `none` when a buffer access aborted the dissection. -/
def dissect_mmrp (tvb : List Nat) : Option (Nat × List Emit) :=
  match msg_loop tvb (tvb.length + 1) 0 0 with
  | none => none
  | some (_, offset, emits) =>
    some (tvb.length,
      Emit.item FieldId.protoId MMRP_PROTOCOL_VERSION_OFFSET ::
        emits ++ [Emit.item FieldId.endMark (offset + 2)])

/-! ### Numeric values of the offset constants -/

lemma attribute_type_offset_eq : MMRP_ATTRIBUTE_TYPE_OFFSET = 1 := rfl

lemma attribute_length_offset_eq : MMRP_ATTRIBUTE_LENGTH_OFFSET = 2 := rfl

lemma vector_header_offset_eq : MMRP_VECTOR_HEADER_OFFSET = 3 := rfl

lemma first_value_group_offset_eq : MMRP_FIRST_VALUE_GROUP_OFFSET = 5 := rfl

lemma service_three_packed_offset_eq : MMRP_SERVICE_THREE_PACKED_OFFSET = 6 := rfl

lemma mac_three_packed_offset_eq : MMRP_MAC_THREE_PACKED_OFFSET = 11 := rfl

lemma end_mark_eq : MMRP_END_MARK = 0 := rfl

lemma vect_attr_len_eq (L N : Nat) :
    vect_attr_len L N = 2 + L + (N + 2) / 3 := rfl

/-- The digit decomposition as the spec's packed-event law states it:
`expand(v) = [v/36, (v%36)/6, v%6]`. -/
def spec_expand (v : Nat) : List Nat :=
  [v / 36, v % 36 / 6, v % 6]

/-- Count the `Emit.item` emissions of a given field in an emission list. -/
def countField (f : FieldId) (es : List Emit) : Nat :=
  (es.filter (fun e =>
    match e with
    | Emit.item g _ => g == f
    | _ => false)).length

/-- The positions of all `Emit.item` End Mark emissions, in order. -/
def endMarkItemPositions (es : List Emit) : List Nat :=
  es.filterMap (fun e =>
    match e with
    | Emit.item FieldId.endMark p => some p
    | _ => none)

/-- A concrete 17-byte MMRP frame: protocol version 0; one Message of MAC
attribute type (0x02) with AttributeLength 8 (accepted verbatim although a
MAC address is 6 bytes); one VectorAttribute with Vector Header 0x2000
(NumberOfValues 0) and FirstValue bytes 1..8; the Vector-Attribute-list End
Mark 0x0000 at offsets 13..14 and the Message-list End Mark at offsets
15..16. -/
def mmrp_frame_mac_len8 : List Nat :=
  [0, 2, 8, 32, 0, 1, 2, 3, 4, 5, 6, 7, 8, 0, 0, 0, 0]

/-! ### Helper lemmas about the byte accessors -/

lemma tvb_get_guint8_none_iff (tvb : List Nat) (i : Nat) :
    tvb_get_guint8 tvb i = none ↔ tvb.length ≤ i := by
  simp [tvb_get_guint8, List.getElem?_eq_none_iff]

lemma tvb_get_guint8_some_bound {tvb : List Nat} {i v : Nat}
    (h : tvb_get_guint8 tvb i = some v) : i < tvb.length := by
  by_contra hc
  rw [(tvb_get_guint8_none_iff tvb i).mpr (by omega)] at h
  exact Option.noConfusion h

lemma tvb_get_ntohs_none_iff (tvb : List Nat) (i : Nat) :
    tvb_get_ntohs tvb i = none ↔ tvb.length < i + 2 := by
  unfold tvb_get_ntohs
  rcases h0 : tvb[i]? with _ | hi
  · rw [List.getElem?_eq_none_iff] at h0
    simp
    omega
  · have hi_lt : i < tvb.length := (List.getElem?_eq_some.mp h0).1
    rcases h1 : tvb[i + 1]? with _ | lo
    · rw [List.getElem?_eq_none_iff] at h1
      simp
      omega
    · have hlo_lt : i + 1 < tvb.length := (List.getElem?_eq_some.mp h1).1
      simp
      omega

lemma tvb_get_ntohs_some_bound {tvb : List Nat} {i w : Nat}
    (h : tvb_get_ntohs tvb i = some w) : i + 2 ≤ tvb.length := by
  by_contra hc
  rw [(tvb_get_ntohs_none_iff tvb i).mpr (by omega)] at h
  exact Option.noConfusion h

/-! ### Helper lemmas about the three-packed expander -/

lemma expandByte_eq (v : Nat) : expandByte v = (v / 36, v % 36 / 6, v % 6) := by
  unfold expandByte
  refine Prod.ext rfl (Prod.ext ?_ ?_) <;> simp <;> omega

lemma three_packed_eval (tvb : List Nat) :
    ∀ N offset, offset + (N + 2) / 3 ≤ tvb.length →
      ∃ ps, dissect_mmrp_three_packed_event tvb offset N =
          some (ps, offset + (N + 2) / 3) ∧
        ps.length = N ∧
        ps.map Prod.snd =
          List.take N (((tvb.drop offset).take ((N + 2) / 3)).map spec_expand).flatten := by
  intro N
  induction N using Nat.strong_induction_on with
  | _ N ih =>
    match N with
    | 0 =>
      intro offset _
      exact ⟨[], by simp [dissect_mmrp_three_packed_event], rfl, by simp⟩
    | 1 =>
      intro offset hlen
      have hofs : offset < tvb.length := by omega
      have hv : tvb_get_guint8 tvb offset = some tvb[offset] :=
        List.getElem?_eq_getElem hofs
      refine ⟨[(offset, tvb[offset] / 36)], ?_, rfl, ?_⟩
      · simp [dissect_mmrp_three_packed_event, hv, expandByte_eq]
      · rw [List.drop_eq_getElem_cons hofs]
        rfl
    | 2 =>
      intro offset hlen
      have hofs : offset < tvb.length := by omega
      have hv : tvb_get_guint8 tvb offset = some tvb[offset] :=
        List.getElem?_eq_getElem hofs
      refine ⟨[(offset, tvb[offset] / 36), (offset, tvb[offset] % 36 / 6)], ?_, rfl, ?_⟩
      · simp [dissect_mmrp_three_packed_event, hv, expandByte_eq]
      · rw [List.drop_eq_getElem_cons hofs]
        rfl
    | n + 3 =>
      intro offset hlen
      have hceil : (n + 3 + 2) / 3 = (n + 2) / 3 + 1 := by omega
      have hofs : offset < tvb.length := by omega
      have hv : tvb_get_guint8 tvb offset = some tvb[offset] :=
        List.getElem?_eq_getElem hofs
      obtain ⟨ps, hrun, hlenps, hmap⟩ :=
        ih n (by omega) (offset + 1) (by omega)
      refine ⟨(offset, tvb[offset] / 36) :: (offset, tvb[offset] % 36 / 6) ::
          (offset, tvb[offset] % 6) :: ps, ?_, by simpa using hlenps, ?_⟩
      · simp only [dissect_mmrp_three_packed_event, hv, expandByte_eq, hrun]
        have : offset + 1 + (n + 2) / 3 = offset + (n + 3 + 2) / 3 := by omega
        rw [this]
      · rw [hceil, List.drop_eq_getElem_cons hofs]
        have h3 : ∀ (rest : List Nat) d0 d1 d2,
            List.take (n + 3) (d0 :: d1 :: d2 :: rest) =
              d0 :: d1 :: d2 :: List.take n rest := fun _ _ _ _ => rfl
        simp only [List.map_cons, List.take_succ_cons, List.flatten_cons, spec_expand,
          List.cons_append, List.nil_append, h3, hmap]

lemma three_packed_offset (tvb : List Nat) :
    ∀ N offset ps fin,
      dissect_mmrp_three_packed_event tvb offset N = some (ps, fin) →
        fin = offset + (N + 2) / 3 := by
  intro N
  induction N using Nat.strong_induction_on with
  | _ N ih =>
    match N with
    | 0 =>
      intro offset ps fin h
      simp [dissect_mmrp_three_packed_event] at h
      omega
    | 1 =>
      intro offset ps fin h
      unfold dissect_mmrp_three_packed_event at h
      rcases hv : tvb_get_guint8 tvb offset with _ | v <;> rw [hv] at h
      · exact Option.noConfusion h
      · simp at h
        omega
    | 2 =>
      intro offset ps fin h
      unfold dissect_mmrp_three_packed_event at h
      rcases hv : tvb_get_guint8 tvb offset with _ | v <;> rw [hv] at h
      · exact Option.noConfusion h
      · simp at h
        omega
    | n + 3 =>
      intro offset ps fin h
      unfold dissect_mmrp_three_packed_event at h
      rcases hv : tvb_get_guint8 tvb offset with _ | v <;> rw [hv] at h
      · exact Option.noConfusion h
      · rcases hrec : dissect_mmrp_three_packed_event tvb (offset + 1) n with _ | pr <;>
          simp only [hrec] at h
        · exact Option.noConfusion h
        · obtain ⟨ps', fin'⟩ := pr
          simp at h
          have := ih n (by omega) (offset + 1) ps' fin' hrec
          omega

lemma three_packed_none_of_short (tvb : List Nat) :
    ∀ N offset, 1 ≤ N → tvb.length < offset + (N + 2) / 3 →
      dissect_mmrp_three_packed_event tvb offset N = none := by
  intro N
  induction N using Nat.strong_induction_on with
  | _ N ih =>
    match N with
    | 0 => intro _ h _; omega
    | 1 =>
      intro offset _ hshort
      have : tvb_get_guint8 tvb offset = none :=
        (tvb_get_guint8_none_iff tvb offset).mpr (by omega)
      simp [dissect_mmrp_three_packed_event, this]
    | 2 =>
      intro offset _ hshort
      have : tvb_get_guint8 tvb offset = none :=
        (tvb_get_guint8_none_iff tvb offset).mpr (by omega)
      simp [dissect_mmrp_three_packed_event, this]
    | n + 3 =>
      intro offset _ hshort
      rcases hv : tvb_get_guint8 tvb offset with _ | v
      · simp only [dissect_mmrp_three_packed_event, hv]
      · have hofs := tvb_get_guint8_some_bound hv
        have hn : 1 ≤ n := by omega
        have hrec : dissect_mmrp_three_packed_event tvb (offset + 1) n = none :=
          ih n (by omega) (offset + 1) hn (by omega)
        simp only [dissect_mmrp_three_packed_event, hv, hrec]

/-! ### Helper lemmas about emission counting -/

lemma countField_append (f : FieldId) (a b : List Emit) :
    countField f (a ++ b) = countField f a + countField f b := by
  simp [countField, List.filter_append]

lemma countField_map_uint (f g : FieldId) (ps : List (Nat × Nat)) :
    countField f (ps.map (fun p => Emit.uint g p.1 p.2)) = 0 := by
  induction ps with
  | nil => rfl
  | cons p ps ih => simpa [countField, List.filter_cons] using ih

lemma countField_va_head (h base : Nat) :
    countField FieldId.vectorAttribute (va_head_emits h base) = 1 := rfl

lemma countField_va_head_message (h base : Nat) :
    countField FieldId.message (va_head_emits h base) = 0 := rfl

lemma countField_mac_fv (f : FieldId) (base : Nat)
    (h1 : f ≠ FieldId.firstValue) (h2 : f ≠ FieldId.mac) :
    countField f (mac_first_value_emits base) = 0 := by
  simp [countField, mac_first_value_emits, List.filter_cons, beq_iff_eq,
    Ne.symm h1, Ne.symm h2]

lemma countField_service_fv (f : FieldId) (base : Nat)
    (h1 : f ≠ FieldId.firstValue) (h2 : f ≠ FieldId.serReq) :
    countField f (service_first_value_emits base) = 0 := by
  simp [countField, service_first_value_emits, List.filter_cons, beq_iff_eq,
    Ne.symm h1, Ne.symm h2]

lemma countField_msg_head (aty mo : Nat) :
    countField FieldId.message (msg_head_emits aty mo) = 1 := rfl

/-! ### Helper lemmas about the Vector Attribute loop -/

lemma vect_attr_len_ge_two (L N : Nat) : 2 ≤ vect_attr_len L N := by
  simp [vect_attr_len]
  omega

lemma va_loop_mono (tvb : List Nat) (aty alen m : Nat) :
    ∀ fuel v off vf of es,
      va_loop tvb aty alen m fuel v off = some (vf, of, es) →
        v + 2 * countField FieldId.vectorAttribute es ≤ vf ∧
        countField FieldId.message es = 0 := by
  intro fuel
  induction fuel with
  | zero =>
    intro v off vf of es h
    exact absurd h (by simp [va_loop])
  | succ fuel ih =>
    intro v off vf of es h
    simp only [va_loop] at h
    split at h
    · exact Option.noConfusion h
    · rename_i hd hp
      split at h
      · injection h with h1
        injection h1 with hvf h2
        injection h2 with hof hes
        subst hvf
        subst hes
        simp [countField]
      · rename_i hend
        split at h
        · rename_i hmac
          split at h
          · exact Option.noConfusion h
          · rename_i ps off2 h3
            split at h
            · exact Option.noConfusion h
            · rename_i vf2 of2 es2 h4
              injection h with h1
              injection h1 with hvf h2
              injection h2 with hof hes
              subst hvf
              subst hes
              have hih := ih _ off2 _ of2 es2 h4
              have hlen2 := vect_attr_len_ge_two alen (number_of_values_of hd)
              constructor
              · rw [countField_append, countField_append, countField_append,
                  countField_va_head, countField_map_uint,
                  countField_mac_fv _ _ (by simp) (by simp)]
                omega
              · rw [countField_append, countField_append, countField_append,
                  countField_va_head_message, countField_map_uint,
                  countField_mac_fv _ _ (by simp) (by simp)]
                omega
        · rename_i hmac
          split at h
          · rename_i hser
            split at h
            · exact Option.noConfusion h
            · rename_i ps off2 h3
              split at h
              · exact Option.noConfusion h
              · rename_i vf2 of2 es2 h4
                injection h with h1
                injection h1 with hvf h2
                injection h2 with hof hes
                subst hvf
                subst hes
                have hih := ih _ off2 _ of2 es2 h4
                have hlen2 := vect_attr_len_ge_two alen (number_of_values_of hd)
                constructor
                · rw [countField_append, countField_append, countField_append,
                    countField_va_head, countField_map_uint,
                    countField_service_fv _ _ (by simp) (by simp)]
                  omega
                · rw [countField_append, countField_append, countField_append,
                    countField_va_head_message, countField_map_uint,
                    countField_service_fv _ _ (by simp) (by simp)]
                  omega
          · rename_i hser
            split at h
            · exact Option.noConfusion h
            · rename_i vf2 of2 es2 h4
              injection h with h1
              injection h1 with hvf h2
              injection h2 with hof hes
              subst hvf
              subst hes
              have hih := ih _ off _ of2 es2 h4
              have hlen2 := vect_attr_len_ge_two alen (number_of_values_of hd)
              constructor
              · rw [countField_append, countField_va_head]
                omega
              · rw [countField_append, countField_va_head_message]
                omega

lemma va_loop_c5 (tvb : List Nat) (aty alen m : Nat)
    (hty : aty = MMRP_ATTRIBUTE_TYPE_MAC ∧ alen = 6 ∨
           aty = MMRP_ATTRIBUTE_TYPE_SERVICE ∧ alen = 1) :
    ∀ fuel v off vf of es,
      va_loop tvb aty alen m fuel v off = some (vf, of, es) →
        tvb_get_ntohs tvb (MMRP_VECTOR_HEADER_OFFSET + m + vf) = some MMRP_END_MARK ∧
        (vf = v ∧ of = off ∨ of = MMRP_VECTOR_HEADER_OFFSET + m + vf) := by
  intro fuel
  induction fuel with
  | zero =>
    intro v off vf of es h
    exact absurd h (by simp [va_loop])
  | succ fuel ih =>
    intro v off vf of es h
    simp only [va_loop] at h
    split at h
    · exact Option.noConfusion h
    · rename_i hd hp
      split at h
      · rename_i hend
        injection h with h1
        injection h1 with hvf h2
        injection h2 with hof hes
        subst hvf
        subst hof
        subst hend
        exact ⟨hp, Or.inl ⟨rfl, rfl⟩⟩
      · rename_i hend
        split at h
        · rename_i hmac
          have halen : alen = 6 := by
            rcases hty with ⟨_, h6⟩ | ⟨h1, _⟩
            · exact h6
            · rw [h1] at hmac
              exact absurd hmac (by decide)
          split at h
          · exact Option.noConfusion h
          · rename_i ps off2 h3
            split at h
            · exact Option.noConfusion h
            · rename_i vf2 of2 es2 h4
              injection h with h1
              injection h1 with hvf h2
              injection h2 with hof hes
              subst hvf
              subst hof
              have hoff2 := three_packed_offset tvb _ _ _ _ h3
              obtain ⟨ihp, ihd⟩ := ih _ off2 _ of2 es2 h4
              refine ⟨ihp, Or.inr ?_⟩
              rcases ihd with ⟨hveq, hoeq⟩ | hoeq
              · subst hveq
                rw [hoeq, hoff2, mac_three_packed_offset_eq,
                  vector_header_offset_eq, halen, vect_attr_len_eq]
                omega
              · exact hoeq
        · rename_i hmac
          split at h
          · rename_i hser
            have halen : alen = 1 := by
              rcases hty with ⟨h1, _⟩ | ⟨_, h1⟩
              · exact absurd h1 hmac
              · exact h1
            split at h
            · exact Option.noConfusion h
            · rename_i ps off2 h3
              split at h
              · exact Option.noConfusion h
              · rename_i vf2 of2 es2 h4
                injection h with h1
                injection h1 with hvf h2
                injection h2 with hof hes
                subst hvf
                subst hof
                have hoff2 := three_packed_offset tvb _ _ _ _ h3
                obtain ⟨ihp, ihd⟩ := ih _ off2 _ of2 es2 h4
                refine ⟨ihp, Or.inr ?_⟩
                rcases ihd with ⟨hveq, hoeq⟩ | hoeq
                · subst hveq
                  rw [hoeq, hoff2, service_three_packed_offset_eq,
                    vector_header_offset_eq, halen, vect_attr_len_eq]
                  omega
                · exact hoeq
          · rename_i hser
            rcases hty with ⟨h1, _⟩ | ⟨h1, _⟩
            · exact absurd h1 hmac
            · exact absurd h1 hser

/-! ### Helper lemmas about the Message loop -/

lemma msg_loop_facts (tvb : List Nat) :
    ∀ fuel m off mf of es,
      msg_loop tvb fuel m off = some (mf, of, es) →
        m + 4 * countField FieldId.message es ≤ mf ∧ mf + 3 ≤ tvb.length := by
  intro fuel
  induction fuel with
  | zero =>
    intro m off mf of es h
    exact absurd h (by simp [msg_loop])
  | succ fuel ih =>
    intro m off mf of es h
    simp only [msg_loop] at h
    split at h
    · exact Option.noConfusion h
    · rename_i w hp
      split at h
      · injection h with h1
        injection h1 with hmf h2
        injection h2 with hof hes
        subst hmf
        subst hes
        have hb := tvb_get_ntohs_some_bound hp
        rw [attribute_type_offset_eq] at hb
        have hc : countField FieldId.message ([] : List Emit) = 0 := rfl
        omega
      · rename_i hend
        split at h
        · rename_i aty alen h1 h2
          split at h
          · exact Option.noConfusion h
          · rename_i vo off2 vaEs h3
            split at h
            · exact Option.noConfusion h
            · rename_i mf2 of2 rest h4
              injection h with hh1
              injection hh1 with hmf hh2
              injection hh2 with hof hes
              subst hmf
              subst hes
              obtain ⟨ihc, ihb⟩ := ih _ _ _ of2 rest h4
              have hva := (va_loop_mono tvb aty alen m _ _ _ _ _ _ h3).2
              have c1 := countField_msg_head aty m
              have c3 : countField FieldId.message [Emit.item FieldId.endMark off2] = 0 := rfl
              constructor
              · rw [countField_append, countField_append, countField_append, c1, hva, c3]
                omega
              · exact ihb
        · exact Option.noConfusion h

lemma three_packed_head (tvb : List Nat) :
    ∀ N offset v, 1 ≤ N → offset + (N + 2) / 3 ≤ tvb.length →
      tvb_get_guint8 tvb offset = some v →
      ∃ ps fin, dissect_mmrp_three_packed_event tvb offset N = some (ps, fin) ∧
        ps.head? = some (offset, v / 36) := by
  intro N
  match N with
  | 0 =>
    intro offset v h0
    exact absurd h0 (by decide)
  | 1 =>
    intro offset v _ hlen hv
    exact ⟨[(offset, v / 36)], offset + 1,
      by simp [dissect_mmrp_three_packed_event, hv, expandByte_eq], rfl⟩
  | 2 =>
    intro offset v _ hlen hv
    exact ⟨[(offset, v / 36), (offset, v % 36 / 6)], offset + 1,
      by simp [dissect_mmrp_three_packed_event, hv, expandByte_eq], rfl⟩
  | n + 3 =>
    intro offset v _ hlen hv
    obtain ⟨ps, hrun, _, _⟩ := three_packed_eval tvb n (offset + 1) (by omega)
    refine ⟨(offset, v / 36) :: (offset, v % 36 / 6) :: (offset, v % 6) :: ps,
      offset + 1 + (n + 2) / 3, ?_, rfl⟩
    simp [dissect_mmrp_three_packed_event, hv, expandByte_eq, hrun]

/-! ### Claim theorems -/

/-- C1: for every count `N ≥ 0` and start offset, the packed-event expander
consumes exactly `ceil(N/3) = (N+2)/3` bytes (the first two conjuncts are the
ceiling characterisation of `(N+2)/3`), emits exactly `N` event values in
order — the first `N` digits of the per-byte decompositions
`[v/36, (v%36)/6, v%6]` of the consumed bytes, trailing digits of the final
byte computed but never emitted — and returns the offset immediately
following the last consumed byte. -/
theorem mmrp_C1 (tvb : List Nat) (offset N : Nat)
    (hlen : offset + (N + 2) / 3 ≤ tvb.length) :
    N ≤ 3 * ((N + 2) / 3) ∧
    3 * ((N + 2) / 3) < N + 3 ∧
    ∃ ps, dissect_mmrp_three_packed_event tvb offset N =
        some (ps, offset + (N + 2) / 3) ∧
      ps.length = N ∧
      ps.map Prod.snd =
        List.take N (((tvb.drop offset).take ((N + 2) / 3)).map spec_expand).flatten :=
  ⟨by omega, by omega, three_packed_eval tvb N offset hlen⟩

/-- Witness for C1 at the concrete buffer `[215, 7]` with `N = 4`. -/
theorem mmrp_C1_witness :
    4 ≤ 3 * ((4 + 2) / 3) ∧
    3 * ((4 + 2) / 3) < 4 + 3 ∧
    ∃ ps, dissect_mmrp_three_packed_event [215, 7] 0 4 = some (ps, 0 + (4 + 2) / 3) ∧
      ps.length = 4 ∧
      ps.map Prod.snd =
        List.take 4 ((([215, 7].drop 0).take ((4 + 2) / 3)).map spec_expand).flatten :=
  mmrp_C1 [215, 7] 0 4 (by decide)

/-- C2: for `NumberOfValues ≤ 8191` and any `AttributeLength`, the
vector-attribute byte length is `2 + L + (N+2)/3`, where `(N+2)/3` is
`ceil(N/3)` (characterised by the two middle conjuncts); `N = 0` gives
`2 + L` with `0` packed-event bytes, `N = 8191` gives `2731` packed-event
bytes, and the whole computation stays small (no overflow). -/
theorem mmrp_C2 (N L : Nat) (hN : N ≤ 8191) :
    vect_attr_len L N = 2 + L + (N + 2) / 3 ∧
    N ≤ 3 * ((N + 2) / 3) ∧
    3 * ((N + 2) / 3) < N + 3 ∧
    (N = 0 → vect_attr_len L N = 2 + L) ∧
    (N + 2) / 3 ≤ 2731 ∧
    (N = 8191 → (N + 2) / 3 = 2731) ∧
    (L ≤ 255 → vect_attr_len L N ≤ 2988) := by
  rw [vect_attr_len_eq]
  exact ⟨rfl, by omega, by omega, by omega, by omega, by omega, by omega⟩

/-- Witness for C2 at `N = 8191`, `L = 6`. -/
theorem mmrp_C2_witness :
    vect_attr_len 6 8191 = 2 + 6 + (8191 + 2) / 3 ∧
    8191 ≤ 3 * ((8191 + 2) / 3) ∧
    3 * ((8191 + 2) / 3) < 8191 + 3 ∧
    (8191 = 0 → vect_attr_len 6 8191 = 2 + 6) ∧
    (8191 + 2) / 3 ≤ 2731 ∧
    (8191 = 8191 → (8191 + 2) / 3 = 2731) ∧
    (6 ≤ 255 → vect_attr_len 6 8191 ≤ 2988) :=
  mmrp_C2 8191 6 (by decide)

/-- C4: for every 16-bit Vector Header value `h`, the decoder's
Number-of-Values is `h &&& 0x1FFF = h % 2^13` (bits [12:0], hence at most
8191) and the Leave-All-Event display value is `h / 2^13` (bits [15:13],
a 3-bit value); both extractions are total, so no other validation is
performed on either field. -/
theorem mmrp_C4 (h : Nat) (hlt : h < 65536) :
    number_of_values_of h = h % 8192 ∧
    number_of_values_of h ≤ 8191 ∧
    leave_all_event_of h = h / 8192 ∧
    h / 8192 < 8 := by
  have hmod : h &&& 8191 = h % 8192 := by
    have := Nat.and_pow_two_sub_one_eq_mod h 13
    norm_num at this
    exact this
  have hmask : number_of_values_of h = h % 8192 := by
    simp only [number_of_values_of, MMRP_NUMBER_OF_VALUES_MASK]
    exact hmod
  have hdiv : h / 8192 < 8 := by omega
  have hsh : (h &&& 57344) >>> 13 = (h >>> 13) &&& 7 := by
    apply Nat.eq_of_testBit_eq
    intro i
    simp only [Nat.testBit_shiftRight, Nat.testBit_and]
    rcases Nat.lt_or_ge i 3 with hi | hi
    · interval_cases i <;> rfl
    · have h1 : Nat.testBit 57344 (13 + i) = false := by
        apply Nat.testBit_lt_two_pow
        calc (57344 : Nat) < 2 ^ 16 := by norm_num
        _ ≤ 2 ^ (13 + i) := Nat.pow_le_pow_right (by norm_num) (by omega)
      have h2 : Nat.testBit 7 i = false := by
        apply Nat.testBit_lt_two_pow
        calc (7 : Nat) < 2 ^ 3 := by norm_num
        _ ≤ 2 ^ i := Nat.pow_le_pow_right (by norm_num) (by omega)
      simp [h1, h2]
  have hla : leave_all_event_of h = h / 8192 := by
    simp only [leave_all_event_of, MMRP_LEAVE_ALL_EVENT_MASK]
    rw [hsh, Nat.shiftRight_eq_div_pow]
    norm_num
    have h7 : h / 8192 &&& 7 = h / 8192 % 8 := by
      have := Nat.and_pow_two_sub_one_eq_mod (h / 8192) 3
      norm_num at this
      exact this
    rw [h7, Nat.mod_eq_of_lt hdiv]
  exact ⟨hmask, by omega, hla, hdiv⟩

/-- Witness for C4 at the concrete header value `0xE01F = 57375`. -/
theorem mmrp_C4_witness :
    number_of_values_of 57375 = 57375 % 8192 ∧
    number_of_values_of 57375 ≤ 8191 ∧
    leave_all_event_of 57375 = 57375 / 8192 ∧
    57375 / 8192 < 8 :=
  mmrp_C4 57375 (by decide)

/-- C9 (implicit): the packed-event start offsets are the fixed constants
FirstValue + 6 (MAC) and FirstValue + 1 (Service), independent of the
AttributeLength byte, while the loop advance uses `vect_attr_len` with the
raw AttributeLength; hence the cursor returned by the expander equals the
next Vector Attribute position `MMRP_VECTOR_HEADER_OFFSET + msg_offset +
(vect_offset + vect_attr_len)` exactly when AttributeLength is 6 (MAC) or
1 (Service). -/
theorem mmrp_C9 (m v alen N : Nat) :
    MMRP_MAC_THREE_PACKED_OFFSET = MMRP_FIRST_VALUE_GROUP_OFFSET + 6 ∧
    MMRP_SERVICE_THREE_PACKED_OFFSET = MMRP_FIRST_VALUE_GROUP_OFFSET + 1 ∧
    (∀ tvb ps fin,
      dissect_mmrp_three_packed_event tvb (MMRP_MAC_THREE_PACKED_OFFSET + (m + v)) N =
          some (ps, fin) →
        (fin = MMRP_VECTOR_HEADER_OFFSET + m + (v + vect_attr_len alen N) ↔ alen = 6)) ∧
    (∀ tvb ps fin,
      dissect_mmrp_three_packed_event tvb (MMRP_SERVICE_THREE_PACKED_OFFSET + (m + v)) N =
          some (ps, fin) →
        (fin = MMRP_VECTOR_HEADER_OFFSET + m + (v + vect_attr_len alen N) ↔ alen = 1)) := by
  refine ⟨rfl, rfl, ?_, ?_⟩
  · intro tvb ps fin hrun
    have hfin := three_packed_offset tvb N _ ps fin hrun
    rw [hfin, mac_three_packed_offset_eq, vector_header_offset_eq, vect_attr_len_eq]
    omega
  · intro tvb ps fin hrun
    have hfin := three_packed_offset tvb N _ ps fin hrun
    rw [hfin, service_three_packed_offset_eq, vector_header_offset_eq, vect_attr_len_eq]
    omega

/-- Witness for C9: the MAC-branch cursor agreement at `alen = 6`, `N = 1`
on a 12-byte all-zero buffer. -/
theorem mmrp_C9_witness :
    (12 : Nat) = MMRP_VECTOR_HEADER_OFFSET + 0 + (0 + vect_attr_len 6 1) ↔ (6 : Nat) = 6 :=
  (mmrp_C9 0 0 6 1).2.2.1 (List.replicate 12 0) [(11, 0)] 12 (by decide)

/-- C10 (implicit): the expander neither rejects nor clamps packed-event
bytes: the second and third digits are always at most 5, the first digit is
at most 7 for any byte value `v ≤ 255` and is emitted verbatim (the head of
the emitted list is `(offset, v / 36)` even when `v / 36 > 5`), and the
expander succeeds on any byte values whatsoever — no malformed-byte error
exists. -/
theorem mmrp_C10 (tvb : List Nat) (offset N v : Nat)
    (hv : tvb_get_guint8 tvb offset = some v)
    (hN : 1 ≤ N)
    (hlen : offset + (N + 2) / 3 ≤ tvb.length) :
    (expandByte v).2.1 ≤ 5 ∧
    (expandByte v).2.2 ≤ 5 ∧
    (v ≤ 255 → (expandByte v).1 ≤ 7) ∧
    ∃ ps fin, dissect_mmrp_three_packed_event tvb offset N = some (ps, fin) ∧
      ps.head? = some (offset, v / 36) := by
  have he := expandByte_eq v
  have e1 : (expandByte v).1 = v / 36 := by rw [he]
  have e2 : (expandByte v).2.1 = v % 36 / 6 := by rw [he]
  have e3 : (expandByte v).2.2 = v % 6 := by rw [he]
  exact ⟨by rw [e2]; omega, by rw [e3]; omega, fun h255 => by rw [e1]; omega,
    three_packed_head tvb N offset v hN hlen hv⟩

/-- Witness for C10 at the out-of-range byte `255`: the first emitted event
value is `255 / 36 = 7`, exceeding the maximum defined event code 5, and no
error is raised. -/
theorem mmrp_C10_witness :
    (expandByte 255).2.1 ≤ 5 ∧
    (expandByte 255).2.2 ≤ 5 ∧
    (255 ≤ 255 → (expandByte 255).1 ≤ 7) ∧
    ∃ ps fin, dissect_mmrp_three_packed_event [255] 0 1 = some (ps, fin) ∧
      ps.head? = some (0, 255 / 36) :=
  mmrp_C10 [255] 0 1 255 (by decide) (by decide) (by decide)

lemma msg_loop_peek_none (tvb : List Nat) (m off fuel : Nat)
    (hp : tvb_get_ntohs tvb (MMRP_ATTRIBUTE_TYPE_OFFSET + m) = none) :
    msg_loop tvb (fuel + 1) m off = none := by
  simp [msg_loop, hp]

lemma va_loop_peek_none (tvb : List Nat) (aty alen m v off fuel : Nat)
    (hp : tvb_get_ntohs tvb (MMRP_VECTOR_HEADER_OFFSET + m + v) = none) :
    va_loop tvb aty alen m (fuel + 1) v off = none := by
  simp [va_loop, hp]

lemma msg_loop_stop_iff (tvb : List Nat) (m off fuel : Nat) :
    msg_loop tvb (fuel + 1) m off = some (m, off, []) ↔
      tvb_get_ntohs tvb (MMRP_ATTRIBUTE_TYPE_OFFSET + m) = some MMRP_END_MARK := by
  constructor
  · intro hsome
    rcases hp : tvb_get_ntohs tvb (MMRP_ATTRIBUTE_TYPE_OFFSET + m) with _ | w
    · rw [msg_loop_peek_none tvb m off fuel hp] at hsome
      exact Option.noConfusion hsome
    · by_cases hw : w = MMRP_END_MARK
      · rw [hw]
      · exfalso
        simp only [msg_loop, hp] at hsome
        rw [if_neg hw] at hsome
        split at hsome
        · split at hsome
          · exact Option.noConfusion hsome
          · rename_i vo off2 vaEs h3
            split at hsome
            · exact Option.noConfusion hsome
            · rename_i mf2 of2 rest h4
              injection hsome with hh1
              injection hh1 with hmf hh2
              injection hh2 with hof hes
              exact absurd hes (by simp [msg_head_emits])
        · exact Option.noConfusion hsome
  · intro hp
    simp [msg_loop, hp]

lemma va_loop_stop_iff (tvb : List Nat) (aty alen m v off fuel : Nat) :
    va_loop tvb aty alen m (fuel + 1) v off = some (v, off, []) ↔
      tvb_get_ntohs tvb (MMRP_VECTOR_HEADER_OFFSET + m + v) = some MMRP_END_MARK := by
  constructor
  · intro hsome
    rcases hp : tvb_get_ntohs tvb (MMRP_VECTOR_HEADER_OFFSET + m + v) with _ | hd
    · rw [va_loop_peek_none tvb aty alen m v off fuel hp] at hsome
      exact Option.noConfusion hsome
    · by_cases hw : hd = MMRP_END_MARK
      · rw [hw]
      · exfalso
        simp only [va_loop, hp] at hsome
        rw [if_neg hw] at hsome
        split at hsome
        · split at hsome
          · exact Option.noConfusion hsome
          · rename_i ps off2 h3
            split at hsome
            · exact Option.noConfusion hsome
            · rename_i vf2 of2 es2 h4
              injection hsome with hh1
              injection hh1 with hvf hh2
              injection hh2 with hof hes
              exact absurd hes (by simp [va_head_emits])
        · split at hsome
          · split at hsome
            · exact Option.noConfusion hsome
            · rename_i ps off2 h3
              split at hsome
              · exact Option.noConfusion hsome
              · rename_i vf2 of2 es2 h4
                injection hsome with hh1
                injection hh1 with hvf hh2
                injection hh2 with hof hes
                exact absurd hes (by simp [va_head_emits])
          · split at hsome
            · exact Option.noConfusion hsome
            · rename_i vf2 of2 es2 h4
              injection hsome with hh1
              injection hh1 with hvf hh2
              injection hh2 with hof hes
              exact absurd hes (by simp [va_head_emits])
  · intro hp
    simp [va_loop, hp]

/-- C3: both nesting levels use lookahead-1 sentinel framing: the Message
loop at `msg_offset` peeks the 2 big-endian bytes at
`MMRP_ATTRIBUTE_TYPE_OFFSET + msg_offset = 1 + msg_offset`, the Vector
Attribute loop at `MMRP_VECTOR_HEADER_OFFSET + msg_offset + vect_offset =
3 + msg_offset + vect_offset`; each loop terminates (returning its cursors
unchanged with no emissions) exactly when that 16-bit value equals the End
Mark 0x0000, commits to parsing a record there otherwise, and aborts when
the peek itself runs past the buffer. -/
theorem mmrp_C3 (tvb : List Nat) (aty alen m v off fuel : Nat) :
    (msg_loop tvb (fuel + 1) m off = some (m, off, []) ↔
      tvb_get_ntohs tvb (MMRP_ATTRIBUTE_TYPE_OFFSET + m) = some MMRP_END_MARK) ∧
    (va_loop tvb aty alen m (fuel + 1) v off = some (v, off, []) ↔
      tvb_get_ntohs tvb (MMRP_VECTOR_HEADER_OFFSET + m + v) = some MMRP_END_MARK) ∧
    (tvb_get_ntohs tvb (MMRP_ATTRIBUTE_TYPE_OFFSET + m) = none →
      msg_loop tvb (fuel + 1) m off = none) ∧
    (tvb_get_ntohs tvb (MMRP_VECTOR_HEADER_OFFSET + m + v) = none →
      va_loop tvb aty alen m (fuel + 1) v off = none) :=
  ⟨msg_loop_stop_iff tvb m off fuel, va_loop_stop_iff tvb aty alen m v off fuel,
   msg_loop_peek_none tvb m off fuel, va_loop_peek_none tvb aty alen m v off fuel⟩

/-- Witness for C3: on the buffer `[7, 0, 0]` the Message loop at
`msg_offset = 0` sees the End Mark and stops with its cursors unchanged. -/
theorem mmrp_C3_witness :
    msg_loop [7, 0, 0] (0 + 1) 0 0 = some (0, 0, []) :=
  (mmrp_C3 [7, 0, 0] 0 0 0 0 0 0).1.mpr (by decide)

/-- C6: a Message whose AttributeType byte is neither 0x01 (Service) nor
0x02 (MAC) is accepted and labeled Unknown rather than rejected (first
conjunct: the value-string lookup falls back to the unknown string used in
`msg_head_emits`), and the Vector Attribute loop continues, sizing each
Vector Attribute with the raw AttributeLength byte — the FirstValue region
of `vect_attr_len` — while emitting the Vector Attribute group and header
fields and leaving the event cursor unchanged. -/
theorem mmrp_C6 (tvb : List Nat) (aty alen m fuel v off h : Nat)
    (h1 : aty ≠ MMRP_ATTRIBUTE_TYPE_SERVICE) (h2 : aty ≠ MMRP_ATTRIBUTE_TYPE_MAC) :
    val_to_str_const aty attribute_type_vals "<Unknown>" = "<Unknown>" ∧
    (tvb_get_ntohs tvb (MMRP_VECTOR_HEADER_OFFSET + m + v) = some h →
      h ≠ MMRP_END_MARK →
      va_loop tvb aty alen m (fuel + 1) v off =
        match va_loop tvb aty alen m fuel
            (v + vect_attr_len alen (number_of_values_of h)) off with
        | none => none
        | some (vf, of, es) => some (vf, of, va_head_emits h (m + v) ++ es)) := by
  have b1 : (MMRP_ATTRIBUTE_TYPE_SERVICE == aty) = false :=
    beq_eq_false_iff_ne.mpr (fun e => h1 e.symm)
  have b2 : (MMRP_ATTRIBUTE_TYPE_MAC == aty) = false :=
    beq_eq_false_iff_ne.mpr (fun e => h2 e.symm)
  constructor
  · simp [val_to_str_const, attribute_type_vals, List.find?, b1, b2]
  · intro hp hne
    simp only [va_loop, hp]
    rw [if_neg hne, if_neg h2, if_neg h1]

/-- Witness for C6 at the unknown attribute type 0x03 with AttributeLength 0
on a 7-byte buffer. -/
theorem mmrp_C6_witness :
    va_loop [0, 3, 0, 32, 0, 0, 0] 3 0 0 (6 + 1) 0 0 =
      match va_loop [0, 3, 0, 32, 0, 0, 0] 3 0 0 6
          (0 + vect_attr_len 0 (number_of_values_of 8192)) 0 with
      | none => none
      | some (vf, of, es) => some (vf, of, va_head_emits 8192 (0 + 0) ++ es) :=
  (mmrp_C6 [0, 3, 0, 32, 0, 0, 0] 3 0 0 6 0 0 8192 (by decide) (by decide)).2
    (by decide) (by decide)

/-- C7: any 1-byte or 2-byte read past the buffer end fails (the two iff
conjuncts), a packed-event run whose declared count needs more bytes than
remain fails, a successful Message-loop run implies the buffer holds at
least the implied minimum `msg_offset + 3` bytes (so a buffer shorter than
the minimum implied by its own header fields is never reported as a complete
successful parse), and a failing Message loop aborts the whole dissection. -/
theorem mmrp_C7 :
    (∀ tvb i, tvb_get_guint8 tvb i = none ↔ tvb.length ≤ i) ∧
    (∀ tvb i, tvb_get_ntohs tvb i = none ↔ tvb.length < i + 2) ∧
    (∀ tvb offset N, 1 ≤ N → tvb.length < offset + (N + 2) / 3 →
      dissect_mmrp_three_packed_event tvb offset N = none) ∧
    (∀ tvb fuel m off mf of es, msg_loop tvb fuel m off = some (mf, of, es) →
      mf + 3 ≤ tvb.length) ∧
    (∀ tvb r, dissect_mmrp tvb = some r →
      ∃ mf of es, msg_loop tvb (tvb.length + 1) 0 0 = some (mf, of, es) ∧
        mf + 3 ≤ tvb.length) ∧
    (∀ tvb, msg_loop tvb (tvb.length + 1) 0 0 = none → dissect_mmrp tvb = none) := by
  refine ⟨tvb_get_guint8_none_iff, tvb_get_ntohs_none_iff,
    fun tvb offset N h1 h2 => three_packed_none_of_short tvb N offset h1 h2,
    fun tvb fuel m off mf of es h => (msg_loop_facts tvb fuel m off mf of es h).2,
    ?_, ?_⟩
  · intro tvb r hq
    rcases hm : msg_loop tvb (tvb.length + 1) 0 0 with _ | t
    · rw [dissect_mmrp, hm] at hq
      exact Option.noConfusion hq
    · obtain ⟨mf, of, mes⟩ := t
      exact ⟨mf, of, mes, rfl, (msg_loop_facts tvb _ _ _ _ _ _ hm).2⟩
  · intro tvb hm
    rw [dissect_mmrp, hm]

/-- Witness for C7: the empty buffer cannot supply the one byte a
single-event packed run needs. -/
theorem mmrp_C7_witness :
    dissect_mmrp_three_packed_event [] 0 1 = none :=
  mmrp_C7.2.2.1 [] 0 1 (by decide) (by decide)

/-- C8: decoding always terminates with at most buffer-length-proportional
work: `vect_attr_len` is at least 2, the packed-event expander advances its
offset by exactly one byte per consumed byte (`(N+2)/3` in total), each
Vector Attribute iteration advances `vect_offset` by at least 2 (so
`vect_offset` bounds twice the number of Vector Attributes emitted), each
Message iteration advances `msg_offset` by at least 4, and on a successful
dissection four times the number of Messages emitted is bounded by the
buffer length. -/
theorem mmrp_C8 :
    (∀ L N, 2 ≤ vect_attr_len L N) ∧
    (∀ tvb offset N ps fin,
      dissect_mmrp_three_packed_event tvb offset N = some (ps, fin) →
        fin = offset + (N + 2) / 3) ∧
    (∀ tvb aty alen m fuel v off vf of es,
      va_loop tvb aty alen m fuel v off = some (vf, of, es) →
        v + 2 * countField FieldId.vectorAttribute es ≤ vf) ∧
    (∀ tvb fuel m off mf of es,
      msg_loop tvb fuel m off = some (mf, of, es) →
        m + 4 * countField FieldId.message es ≤ mf) ∧
    (∀ tvb len es, dissect_mmrp tvb = some (len, es) →
      4 * countField FieldId.message es ≤ tvb.length) := by
  refine ⟨vect_attr_len_ge_two,
    fun tvb offset N ps fin h => three_packed_offset tvb N offset ps fin h,
    fun tvb aty alen m fuel v off vf of es h =>
      (va_loop_mono tvb aty alen m fuel v off vf of es h).1,
    fun tvb fuel m off mf of es h => (msg_loop_facts tvb fuel m off mf of es h).1,
    ?_⟩
  intro tvb len es hq
  rcases hm : msg_loop tvb (tvb.length + 1) 0 0 with _ | t
  · rw [dissect_mmrp, hm] at hq
    exact Option.noConfusion hq
  · obtain ⟨mf, of, mes⟩ := t
    simp only [dissect_mmrp, hm] at hq
    injection hq with hq1
    injection hq1 with hlen hes
    subst hes
    obtain ⟨hcount, hbound⟩ := msg_loop_facts tvb _ _ _ _ _ _ hm
    have hsplit : Emit.item FieldId.protoId MMRP_PROTOCOL_VERSION_OFFSET ::
        mes ++ [Emit.item FieldId.endMark (of + 2)] =
        [Emit.item FieldId.protoId MMRP_PROTOCOL_VERSION_OFFSET] ++
          (mes ++ [Emit.item FieldId.endMark (of + 2)]) := rfl
    rw [hsplit, countField_append, countField_append]
    have a1 : countField FieldId.message
        [Emit.item FieldId.protoId MMRP_PROTOCOL_VERSION_OFFSET] = 0 := rfl
    have a2 : countField FieldId.message [Emit.item FieldId.endMark (of + 2)] = 0 := rfl
    omega

/-- Witness for C8: a minimal frame with zero Messages on a 3-byte buffer. -/
theorem mmrp_C8_witness :
    4 * countField FieldId.message
        [Emit.item FieldId.protoId 0, Emit.item FieldId.endMark 2] ≤ 3 :=
  mmrp_C8.2.2.2.2 [7, 0, 0] 3
    [Emit.item FieldId.protoId 0, Emit.item FieldId.endMark 2] (by decide)

/-- Counterexample to C5 as stated: on the frame `mmrp_frame_mac_len8` the
Message has MAC attribute type and contains one VectorAttribute, yet the
Vector-Attribute-list End Mark field is emitted at position 11 (the cursor
returned by the packed-event expansion, `11 = MAC packed offset + 0 bytes`)
while the actual terminating 0x0000 of the Message's vector-attribute list
sits at position 13; position 11 holds the value 0x0708 = 1800, not an End
Mark.  The emitted End Mark positions of the whole dissection are `[11, 13]`
(the first is the Vector-Attribute-list End Mark, the second the top-level
one) and exactly one Vector Attribute was emitted. -/
theorem mmrp_C5_counterexample :
    tvb_get_guint8 mmrp_frame_mac_len8 MMRP_ATTRIBUTE_TYPE_OFFSET =
      some MMRP_ATTRIBUTE_TYPE_MAC ∧
    (dissect_mmrp mmrp_frame_mac_len8).map
        (fun r => (endMarkItemPositions r.2, countField FieldId.vectorAttribute r.2)) =
      some ([11, 13], 1) ∧
    tvb_get_ntohs mmrp_frame_mac_len8 13 = some MMRP_END_MARK ∧
    tvb_get_ntohs mmrp_frame_mac_len8 11 = some 1800 ∧
    (11 : Nat) ≠ 13 :=
  ⟨by decide, by decide, by decide, by decide, by decide⟩

/-- C5 (amended): the Vector-Attribute-list End Mark field is emitted at the
position tracked by the last event-decode cursor (definitionally, `msg_loop`
emits `Emit.item FieldId.endMark` at the cursor the Vector Attribute loop
returns); that position equals the buffer position of the actual terminating
0x0000 of the Message's vector-attribute list whenever the Message contained
at least one VectorAttribute **and** its AttributeLength is 6 for a MAC
message or 1 for a Service message (the unrestricted form of the claim is
refuted by `mmrp_C5_counterexample`). -/
theorem mmrp_C5 (tvb : List Nat) (aty alen m off fuel vf of : Nat) (es : List Emit)
    (hty : aty = MMRP_ATTRIBUTE_TYPE_MAC ∧ alen = 6 ∨
           aty = MMRP_ATTRIBUTE_TYPE_SERVICE ∧ alen = 1)
    (hrun : va_loop tvb aty alen m fuel 0 off = some (vf, of, es))
    (hvf : 0 < vf) :
    of = MMRP_VECTOR_HEADER_OFFSET + m + vf ∧
    tvb_get_ntohs tvb (MMRP_VECTOR_HEADER_OFFSET + m + vf) = some MMRP_END_MARK := by
  obtain ⟨hpk, hd⟩ := va_loop_c5 tvb aty alen m hty fuel 0 off vf of es hrun
  rcases hd with ⟨h0, _⟩ | hoeq
  · omega
  · exact ⟨hoeq, hpk⟩

/-- Witness for the amended C5: a MAC Message with AttributeLength 6 and one
VectorAttribute; the event cursor lands exactly on the Vector-Attribute-list
End Mark at position 11. -/
theorem mmrp_C5_witness :
    (11 : Nat) = MMRP_VECTOR_HEADER_OFFSET + 0 + 8 ∧
    tvb_get_ntohs [0, 2, 6, 32, 0, 1, 2, 3, 4, 5, 6, 0, 0, 0, 0]
        (MMRP_VECTOR_HEADER_OFFSET + 0 + 8) = some MMRP_END_MARK :=
  mmrp_C5 [0, 2, 6, 32, 0, 1, 2, 3, 4, 5, 6, 0, 0, 0, 0] 2 6 0 0 16 8 11
    [Emit.item FieldId.vectorAttribute 3, Emit.uint FieldId.vectorHeader 3 8192,
     Emit.uint FieldId.leaveAllEvent 3 1, Emit.uint FieldId.numberOfValues 3 0,
     Emit.item FieldId.firstValue 5, Emit.item FieldId.mac 5]
    (Or.inl ⟨by decide, by decide⟩) (by decide) (by decide)
